import Mathlib

/-!
Verification of the scan-processing and control core of the `lidar`
omni-wheel-car repository, as a shallow embedding in Lean.

Conventions of the embedding:
* Python floats are modelled as real numbers (`ℝ`); measured integer
  quantities (encoder counts, distances in cm) as `ℤ`; exact decimal
  arithmetic of the controllers as `ℚ`.
* Python code that raises an unhandled exception on some input is
  modelled as an `Option`-valued function returning `none` there.
* `int(x)` (Python truncation toward zero) is `truncQ` / `truncR`.
-/

namespace Lidar

/-! ## Geometry primitives (src/proscan.py, module level)

A point `(x, y)` is a pair of reals; a line `(a, b, c)` stands for the
equation `a*x + b*y + c = 0`. -/

/-- Embedding of `proscan.cnvrt_2pts_to_coef`: coefficients of the line
through two points. -/
def cnvrt_2pts_to_coef (pt1 pt2 : ℝ × ℝ) : ℝ × ℝ × ℝ :=
  (pt2.2 - pt1.2, pt1.1 - pt2.1, pt2.1 * pt1.2 - pt1.1 * pt2.2)

/-- Embedding of `proscan.proj_pt_on_line`: the foot of the perpendicular
from `pt` to `line`; `pt` itself when the line is degenerate
(`a**2 + b**2 == 0`, Python's `if not denom`). -/
noncomputable def proj_pt_on_line (line : ℝ × ℝ × ℝ) (pt : ℝ × ℝ) : ℝ × ℝ :=
  let a := line.1
  let b := line.2.1
  let c := line.2.2
  let x := pt.1
  let y := pt.2
  let denom := a ^ 2 + b ^ 2
  if denom = 0 then pt
  else ((b ^ 2 * x - a * b * y - a * c) / denom,
        (a ^ 2 * y - a * b * x - b * c) / denom)

/-- Embedding of `proscan.p2p_dist`: Euclidean distance. -/
noncomputable def p2p_dist (p1 p2 : ℝ × ℝ) : ℝ :=
  Real.sqrt ((p1.1 - p2.1) ^ 2 + (p1.2 - p2.2) ^ 2)

/-- Two-argument arctangent, the mathematical function computed by
Python's `math.atan2(y, x)` (value in `(-π, π]`). -/
noncomputable def atan2 (y x : ℝ) : ℝ :=
  if 0 < x then Real.arctan (y / x)
  else if x < 0 then
    (if 0 ≤ y then Real.arctan (y / x) + Real.pi
     else Real.arctan (y / x) - Real.pi)
  else
    (if 0 < y then Real.pi / 2
     else if y < 0 then -(Real.pi / 2)
     else 0)

/-- Embedding of `proscan.p2p_angle`: angle (degrees) from `p0` to `p1`. -/
noncomputable def p2p_angle (p0 p1 : ℝ × ℝ) : ℝ :=
  atan2 (p1.2 - p0.2) (p1.1 - p0.1) * 180 / Real.pi

/-- Embedding of `proscan.p2line_dist`: perpendicular distance from `pt`
to `line`, via the projection. -/
noncomputable def p2line_dist (pt : ℝ × ℝ) (line : ℝ × ℝ × ℝ) : ℝ :=
  p2p_dist pt (proj_pt_on_line line pt)

/-! ## Incremental line fitting (src/proscan.py, `ProcessScan._find_line_segment`
and `ProcessScan._find_sum_of_sq_dist_to_line`)

The scan's point coordinates are modelled as a function `pts : ℕ → ℝ × ℝ`
(`self.points[i].xy`). -/

/-- Embedding of `ProcessScan._find_sum_of_sq_dist_to_line`: over the
points with index in `[indx0, indx1)` (after swapping so the range
ascends), returns `(mean distance to line, cumulative squared distance)`.
Python raises `ZeroDivisionError` when the range is empty; the callers
below never pass an empty range (in Lean `x / 0 = 0`). -/
noncomputable def find_sum_of_sq_dist_to_line (pts : ℕ → ℝ × ℝ)
    (line : ℝ × ℝ × ℝ) (indx0 indx1 : ℕ) : ℝ × ℝ :=
  let lo := if indx1 < indx0 then indx1 else indx0
  let hi := if indx1 < indx0 then indx0 else indx1
  ((∑ i ∈ Finset.Ico lo hi, p2line_dist (pts i) line) / ((hi - lo : ℕ) : ℝ),
   ∑ i ∈ Finset.Ico lo hi, (p2line_dist (pts i) line) ^ 2)

/-- The `avg_dist` recomputed by each iteration of the
`_find_line_segment` loop: mean distance of points `istrt, …, istop-1`
to the line through `points[istrt]` and `points[istop]`. -/
noncomputable def loop_avg (pts : ℕ → ℝ × ℝ) (istrt istop : ℕ) : ℝ :=
  (find_sum_of_sq_dist_to_line pts
    (cnvrt_2pts_to_coef (pts istrt) (pts istop)) istrt istop).1

/-- The ascending `while avg_dist < self.FIT` loop of
`ProcessScan._find_line_segment`, entered with the candidate endpoint at
`istop` and the most recently computed mean distance `avg` (initially
`0`).  The value returned already includes the final `istop -= 1`
back-off of the source (`ℕ` subtraction; the `istop - 1` branch is
reached with `istop = istrt = 0` only when `fit ≤ 0`, where Python
returns `-1`). -/
noncomputable def flsAsc (pts : ℕ → ℝ × ℝ) (fit : ℝ) (istrt iend istop : ℕ)
    (avg : ℝ) : ℕ :=
  if avg < fit then
    if istop + 1 > iend then istop
    else flsAsc pts fit istrt iend (istop + 1) (loop_avg pts istrt (istop + 1))
  else istop - 1
termination_by iend - istop
decreasing_by omega

/-- The descending variant of the same loop (`ascending == False`),
with the final `istop += 1` applied. -/
noncomputable def flsDesc (pts : ℕ → ℝ × ℝ) (fit : ℝ) (istrt iend istop : ℕ)
    (avg : ℝ) : ℕ :=
  if avg < fit then
    if istop ≤ iend then istop
    else flsDesc pts fit istrt iend (istop - 1) (loop_avg pts istrt (istop - 1))
  else istop + 1
termination_by istop - iend
decreasing_by omega

/-- Embedding of `ProcessScan._find_line_segment`. -/
noncomputable def find_line_segment (pts : ℕ → ℝ × ℝ) (fit : ℝ)
    (begin_idx end_idx : ℕ) : ℕ :=
  if begin_idx < end_idx then flsAsc pts fit begin_idx end_idx begin_idx 0
  else flsDesc pts fit begin_idx end_idx begin_idx 0

/-! ### The claim's variant of the fit loop (for comparison)

The claim states that each iteration averages the perpendicular
distances of the points *strictly between* `begin` and the candidate
endpoint (dividing by the count of those points).  The source instead
averages over `range(istrt, istop)`, which includes `points[begin]`
(always at distance `0`) and divides by `istop - istrt`. -/

/-- Mean distance over the points strictly between `istrt` and `istop`,
to the line through `points[istrt]` and `points[istop]` — the quantity
named by the claim (an empty set of points counts as mean `0`). -/
noncomputable def strict_between_avg (pts : ℕ → ℝ × ℝ) (istrt istop : ℕ) : ℝ :=
  (∑ i ∈ Finset.Ico (istrt + 1) istop,
      p2line_dist (pts i) (cnvrt_2pts_to_coef (pts istrt) (pts istop)))
    / ((istop - (istrt + 1) : ℕ) : ℝ)

/-- The ascending fit loop exactly as the claim words it, differing from
`flsAsc` only in the mean that is tested against `fit`. -/
noncomputable def flsAscClaim (pts : ℕ → ℝ × ℝ) (fit : ℝ)
    (istrt iend istop : ℕ) (avg : ℝ) : ℕ :=
  if avg < fit then
    if istop + 1 > iend then istop
    else flsAscClaim pts fit istrt iend (istop + 1)
      (strict_between_avg pts istrt (istop + 1))
  else istop - 1
termination_by iend - istop
decreasing_by omega

/-- `_find_line_segment` as the claim describes it, for `begin < end`. -/
noncomputable def find_line_segment_claim (pts : ℕ → ℝ × ℝ) (fit : ℝ)
    (begin_idx end_idx : ℕ) : ℕ :=
  flsAscClaim pts fit begin_idx end_idx begin_idx 0

/-! ## Corner finding and segment generation
(src/proscan.py, `ProcessScan._find_corners`, `ProcessScan._generate_segments`) -/

/-- The forward accumulation loop of `ProcessScan._find_corners`
(`while start_idx != idx1`), with explicit fuel.  For `fit > 0` each
returned corner strictly exceeds the previous start, so
`idx1 - idx0 + 1` fuel always suffices to reach `idx1` (with `fit ≤ 0`
the Python loop would not terminate at all). -/
noncomputable def fcGo (pts : ℕ → ℝ × ℝ) (fit : ℝ) (idx1 : ℕ) :
    ℕ → ℕ → List ℕ
  | 0, _ => []
  | fuel + 1, start_idx =>
    if start_idx = idx1 then []
    else
      find_line_segment pts fit start_idx idx1
        :: fcGo pts fit idx1 fuel (find_line_segment pts fit start_idx idx1)

/-- Embedding of `ProcessScan._find_corners`: the source also computes a
reverse pass `corners_rev` but only logs it and returns the forward
corners `corners_fwd`, so the reverse pass is omitted here. -/
noncomputable def find_corners (pts : ℕ → ℝ × ℝ) (fit : ℝ)
    (region : ℕ × ℕ) : List ℕ :=
  fcGo pts fit region.2 (region.2 - region.1 + 1) region.1

/-- Embedding of the per-region body of `ProcessScan._generate_segments`:
`for index in region` iterates over the two endpoint indexes of the
region tuple, appending each to the corner list when missing; the list is
then sorted and zipped with its own tail (`zip(corners, corners[1:])`). -/
noncomputable def generate_segments_for_region (pts : ℕ → ℝ × ℝ) (fit : ℝ)
    (region : ℕ × ℕ) : List (ℕ × ℕ) :=
  let corners0 := find_corners pts fit region
  let corners1 :=
    if region.1 ∈ corners0 then corners0 else corners0 ++ [region.1]
  let corners2 :=
    if region.2 ∈ corners1 then corners1 else corners1 ++ [region.2]
  let sorted := List.insertionSort (· ≤ ·) corners2
  sorted.zip sorted.tail

/-- Concrete scan points for evaluating the fit loop:
index 0 ↦ (0,0), index 1 ↦ (5,5), index 2 ↦ (10,0). -/
noncomputable def ptsCEX : ℕ → ℝ × ℝ := fun n =>
  if n = 0 then (0, 0)
  else if n = 1 then (5, 5) else if n = 2 then (10, 0) else (0, 0)

/-! ## Scan point model and region segmentation
(src/proscan.py, `Point`, `ProcessScan._generate_points`,
`ProcessScan._generate_regions`, `ProcessScan._find_zero_regions`,
`ProcessScan.__init__`) -/

/-- Modelled from the spec: the `constants` module imported by
src/omnicar.py is not under src/, so the encoder window bounds `LEV` and
`HEV` it provides are taken from §4.2's window description together with
the source comments (`straight left: enc_cnt = 10,000; straight right:
enc_cnt = 30,000` in `omnicar.encoder_count_to_radians`). -/
def OC_LEV : ℤ := 10000

/-- Modelled from the spec: high encoder bound, see `OC_LEV`. -/
def OC_HEV : ℤ := 30000

/-- Embedding of `proscan.encoder_count_to_radians` (it uses the module
constants `oc.LEV`/`oc.HEV`, not any per-scan override). -/
noncomputable def encoder_count_to_radians (enc_val : ℤ) : ℝ :=
  ((OC_HEV - enc_val : ℤ) : ℝ) * Real.pi / ((OC_HEV - OC_LEV : ℤ) : ℝ)

/-- Embedding of `proscan.Point`: measured encoder value and distance,
derived angle (radians) and rectangular coordinates. -/
structure Point where
  enc_val : ℤ
  dist : ℤ
  theta : ℝ
  xy : ℝ × ℝ

/-- The all-zero `Point` (used as the out-of-range default of list
lookups; the source never indexes its point list out of range in the
situations modelled here). -/
noncomputable def pt0 : Point :=
  ⟨0, 0, 0, (0, 0)⟩

/-- Embedding of `ProcessScan._generate_points`: one `Point` per data
record `(encoder_count, dist, …)` (the remaining record fields are
dropped by `record[:2]`); `theta` is derived only for nonzero distance
and `xy` only for nonzero `theta` (the source does this in three
consecutive passes whose per-point results are independent). -/
noncomputable def generate_points (data : List (ℤ × ℤ)) : List Point :=
  data.map (fun r =>
    let theta := if r.2 ≠ 0 then encoder_count_to_radians r.1 else 0
    let xy := if theta ≠ 0
      then ((r.2 : ℝ) * Real.cos theta, (r.2 : ℝ) * Real.sin theta)
      else ((0 : ℝ), (0 : ℝ))
    ⟨r.1, r.2, theta, xy⟩)

/-- The distance `self.points[n-1].dist` read by `_generate_regions`:
for `n = 0` Python's negative indexing reads the *last* point. -/
noncomputable def prev_dist (pts : List Point) (n : ℕ) : ℤ :=
  if n = 0 then (pts.getLast?.getD pt0).dist else (pts.getD (n - 1) pt0).dist

/-- The gap `abs(pnt.dist - self.points[n-1].dist)` as an exact
rational. -/
noncomputable def gapQ (pts : List Point) (n : ℕ) : ℚ :=
  |((pts.getD n pt0).dist : ℚ) - ((prev_dist pts n : ℤ) : ℚ)|

/-- The `for n, pnt in enumerate(self.points)` loop of
`ProcessScan._generate_regions`, returning `(regions, n, start_index)`
at loop exit.  The `enc_val > HEV` arm breaks out before the gap test;
a normally completed loop leaves `n` at the last index
(`pts.length - 1`). -/
noncomputable def grAux (LEV HEV : ℤ) (GAP : ℚ) (pts : List Point)
    (n start_index : ℕ) (dist : ℚ) (regions : List (ℕ × ℕ)) :
    List (ℕ × ℕ) × ℕ × ℕ :=
  if n < pts.length then
    let pnt := pts.getD n pt0
    if pnt.enc_val > HEV then (regions, n, start_index)
    else
      let start1 := if pnt.enc_val < LEV then n else start_index
      let dist1 := if pnt.enc_val < LEV then dist else gapQ pts n
      if dist1 > GAP * (pnt.dist : ℚ) / 100 then
        grAux LEV HEV GAP pts (n + 1) n dist1
          (if n > start1 + 1 then regions ++ [(start1, n - 1)] else regions)
      else
        grAux LEV HEV GAP pts (n + 1) start1 dist1 regions
  else (regions, n - 1, start_index)
termination_by pts.length - n
decreasing_by all_goals omega

/-- Embedding of `ProcessScan._generate_regions`.  On an empty point
list the trailing `if n != start_index:` reads the loop variable `n`
that was never bound and Python raises an unhandled `NameError`;
this is modelled as `none`. -/
noncomputable def generate_regions (LEV HEV : ℤ) (GAP : ℚ)
    (pts : List Point) : Option (List (ℕ × ℕ)) :=
  if pts.isEmpty then none
  else
    let r := grAux LEV HEV GAP pts 0 0 0 []
    some (if r.2.1 ≠ r.2.2 then r.1 ++ [(r.2.2, r.2.1)] else r.1)

/-- Embedding of `ProcessScan._find_zero_regions`: indexes of the
regions whose first point has distance zero. -/
noncomputable def find_zero_regions (pts : List Point)
    (regions : List (ℕ × ℕ)) : List ℕ :=
  (regions.enum.filter (fun p => (pts.getD p.2.1 pt0).dist = 0)).map Prod.fst

/-- The `ProcessScan` state established by `__init__`. -/
structure PScan where
  points : List Point
  regions : List (ℕ × ℕ)
  segments : List (ℕ × ℕ)
  zero_regions : List ℕ

/-- The coordinates `self.points[i].xy` as a total function, as consumed
by the line-fitting routines. -/
noncomputable def xyF (pts : List Point) : ℕ → ℝ × ℝ :=
  fun i => (pts.getD i pt0).xy

/-- Embedding of `ProcessScan.__init__` with explicit window/threshold
parameters (the `if lev:`-style defaulting of the source resolves to
the values passed here).  `none` models the unhandled error raised by
`_generate_regions` on an empty sample sequence. -/
noncomputable def process_scan_init (LEV HEV : ℤ) (GAP : ℚ) (FIT : ℝ)
    (data : List (ℤ × ℤ)) : Option PScan :=
  let pts := generate_points data
  match generate_regions LEV HEV GAP pts with
  | none => none
  | some regions =>
      some ⟨pts, regions,
        regions.flatMap (generate_segments_for_region (xyF pts) FIT),
        find_zero_regions pts regions⟩

/-- Concrete scan points forming two clusters: two points near 100 cm
followed by two points near 200 cm, all encoder values inside
`[10000, 30000]`. -/
noncomputable def ptsC6 : List Point :=
  [⟨15000, 100, 0, (0, 0)⟩, ⟨15100, 102, 0, (0, 0)⟩,
   ⟨20000, 200, 0, (0, 0)⟩, ⟨20100, 202, 0, (0, 0)⟩]

/-! ## Steering controller (src/operate.py, `PID`) and arrival
estimator (src/operate.py, `ETA`)

These are exact-arithmetic embeddings over `ℚ`; Python's `int(x)`
truncation toward zero is `truncQ`. -/

/-- Python `int(x)` for a rational: truncation toward zero. -/
def truncQ (q : ℚ) : ℤ :=
  if 0 ≤ q then ⌊q⌋ else ⌈q⌉

/-- `KP = 0.2`, the steering proportional coefficient. -/
def KP : ℚ := 0.2

/-- `KI = 0.15`, the steering integral coefficient. -/
def KI : ℚ := 0.15

/-- `KD = 0.4`, the steering derivative coefficient. -/
def KD : ℚ := 0.4

/-- `PIDTRIM = 8`, the default spin trim. -/
def PIDTRIM : ℤ := 8

/-- `PIDWIN = 6`, the rolling-average window size. -/
def PIDWIN : ℕ := 6

/-- Embedding of the `operate.PID` instance state. -/
structure PIDState where
  target : ℚ
  prev_error : ℚ
  trimval : ℤ
  rwl : List ℚ
deriving DecidableEq

/-- Embedding of `PID.__init__`: zero previous error, trim seeded with
`PIDTRIM`, rolling window seeded with `PIDWIN` copies of `1`. -/
def PID_init (target : ℚ) : PIDState :=
  ⟨target, 0, PIDTRIM, List.replicate PIDWIN 1⟩

/-- Embedding of `PID.trim` as a function of the heading read for this
cycle (`car.heading()` is external hardware): returns the updated state
and the trim value returned to the caller.  The rolling window update
mirrors `_get_integral_error`: insert the new error at the front, pop
the last (oldest) entry, take the mean of the result. -/
def PID_trim (s : PIDState) (hdg : ℚ) : PIDState × ℤ :=
  let heading_error := hdg - s.target
  let p_term := heading_error * KP
  let rwl1 := (heading_error :: s.rwl).dropLast
  let i_term := (rwl1.sum / (rwl1.length : ℚ)) * KI
  let d_term := (heading_error - s.prev_error) * KD
  let adjustment := truncQ (p_term + i_term + d_term)
  (⟨s.target, heading_error, s.trimval + adjustment, rwl1⟩,
   s.trimval + adjustment)

/-- `PID.trim` as claim C4 words it, with `round` where the source
truncates via `int()` (Mathlib's `round` rounds half up while Python's
rounds half to even; the comparison input below is not a tie, where
every rounding convention agrees). -/
def PID_trim_claim (s : PIDState) (hdg : ℚ) : PIDState × ℤ :=
  let heading_error := hdg - s.target
  let p_term := heading_error * KP
  let rwl1 := (heading_error :: s.rwl).dropLast
  let i_term := (rwl1.sum / (rwl1.length : ℚ)) * KI
  let d_term := (heading_error - s.prev_error) * KD
  let adjustment := round (p_term + i_term + d_term)
  (⟨s.target, heading_error, s.trimval + adjustment, rwl1⟩,
   s.trimval + adjustment)

/-- Embedding of the `operate.ETA` instance state. -/
structure ETAState where
  target : ℚ
  initial_val : ℚ
  prev_val : ℚ
  prev_time : ℚ
deriving DecidableEq

/-- Embedding of `ETA.__init__` called at wall-clock time `now`. -/
def ETA_init (initial_val target now : ℚ) : ETAState :=
  ⟨target, initial_val, initial_val, now⟩

/-- Embedding of `ETA.update` with the wall-clock reading `now` passed
explicitly.  `none` models the unhandled Python errors: the
`UnboundLocalError` when `initial_val == target` (neither branch binds
`delta_val`), the `ZeroDivisionError` at `slope = self.delta_time /
delta_val` when the measured progress `delta_val` is zero, and the
`ZeroDivisionError` at `eta / self.delta_time` when no time elapsed. -/
def ETA_update (s : ETAState) (val now : ℚ) : Option (ETAState × ℤ × ℚ) :=
  if s.initial_val = s.target then none
  else
    let delta_time := now - s.prev_time
    let delta_val :=
      if s.initial_val > s.target then s.prev_val - val else val - s.prev_val
    if delta_val = 0 then none
    else if delta_time = 0 then none
    else
      some (⟨s.target, s.initial_val, val, now⟩,
        truncQ ((val - s.target) * (delta_time / delta_val) / delta_time),
        (val - s.target) * (delta_time / delta_val))

/-! ## Sector analysis (src/omnicar.py, `OmniCar.open_sectors`,
`OmniCar.auto_detect_open_sector`) -/

/-- Python `int(x)` for a real: truncation toward zero. -/
noncomputable def truncR (x : ℝ) : ℤ :=
  if 0 ≤ x then ⌊x⌋ else ⌈x⌉

/-- A scan data point as produced by `OmniCar.scan` and consumed by the
sector analysis: measured distance (`dist`) and derived angle in radians
(`theta`); the dictionary's `enc_cnt`, `bytes`, `delta_t`, `xy` entries
are not read by these methods and are omitted. -/
structure ScanPoint where
  dist : ℤ
  theta : ℝ

/-- `int(pnt.get("theta") * 180 / math.pi)`: a point's angle in whole
degrees. -/
noncomputable def truncdeg (theta : ℝ) : ℤ :=
  truncR (theta * 180 / Real.pi)

/-- Loop state of `OmniCar.open_sectors`: the sectors emitted so far,
the `in_sector` flag, and the last values assigned to
`(start_angle, end_angle)` — `none` while those variables are still
unassigned. -/
structure OSState where
  sectors : List (ℤ × ℤ)
  in_sector : Bool
  bounds : Option (ℤ × ℤ)

/-- One iteration of the `for pnt in self.points` loop of
`OmniCar.open_sectors`.  A point is "open" when `dist < 0 or dist >
radius`.  While inside a sector a point with `dist == radius` exactly
fires neither inner arm and changes nothing.  The `bounds = none` arms
with `in_sector = true` are unreachable (a sector is only ever entered
by assigning both angles). -/
noncomputable def os_step (radius : ℝ) (st : OSState) (pnt : ScanPoint) :
    OSState :=
  if !st.in_sector then
    if (pnt.dist : ℝ) < 0 ∨ (pnt.dist : ℝ) > radius then
      ⟨st.sectors, true, some (truncdeg pnt.theta, truncdeg pnt.theta)⟩
    else st
  else
    if (pnt.dist : ℝ) < 0 ∨ (pnt.dist : ℝ) > radius then
      match st.bounds with
      | some b => ⟨st.sectors, true, some (b.1, truncdeg pnt.theta)⟩
      | none => st
    else if (pnt.dist : ℝ) < radius then
      match st.bounds with
      | some b => ⟨st.sectors ++ [b], false, some b⟩
      | none => st
    else st

/-- Embedding of `OmniCar.open_sectors`.  After the loop the source
builds `sector = (start_angle, end_angle)` from the last values those
variables were assigned and appends it unless it is already among the
emitted sectors; when no point ever opened a sector the variables were
never assigned and Python raises an unhandled `UnboundLocalError`,
modelled as `none`. -/
noncomputable def open_sectors (pts : List ScanPoint) (radius : ℝ) :
    Option (List (ℤ × ℤ)) :=
  let st := pts.foldl (os_step radius) ⟨[], false, none⟩
  match st.bounds with
  | none => none
  | some sec =>
      some (if sec ∈ st.sectors then st.sectors else st.sectors ++ [sec])

/-- Modelled from the spec: `geom_utils.p2r` (the geometry module is not
under src/) — the standard polar-to-rectangular conversion of §4.1,
taking a radius and an angle in degrees as its callers in src/ pass
them. -/
noncomputable def p2r (r theta_deg : ℝ) : ℝ × ℝ :=
  (r * Real.cos (theta_deg * Real.pi / 180),
   r * Real.sin (theta_deg * Real.pi / 180))

/-- Embedding of `OmniCar.auto_detect_open_sector` as a function of the
scan points, returning the `self.target` assignment: the outer `none`
models an unhandled error (`ZeroDivisionError` when the filtered list is
empty, or the `open_sectors` error), the inner `none` means no sector of
width over 12° was found and no target is set.  The filter keeps
distances `!= 3`: the docstring says "not == -3" but the code compares
with `3`. -/
noncomputable def auto_detect_open_sector (pts : List ScanPoint) :
    Option (Option (ℝ × ℝ)) :=
  let rvals := (pts.map (fun p => p.dist)).filter (fun d => d ≠ 3)
  if rvals.length = 0 then none
  else
    let radius := ((rvals.sum : ℤ) : ℝ) / (rvals.length : ℝ) * 1.5
    match open_sectors pts radius with
    | none => none
    | some sectors =>
        match sectors.find? (fun s => s.1 - s.2 > 12) with
        | some s =>
            some (some (p2r (radius * 0.7) (((s.1 : ℝ) + (s.2 : ℝ)) / 2)))
        | none => some none

/-- `auto_detect_open_sector` as claim C7 words it: the mean is taken
over the points with *nonzero* distance (everything else identical). -/
noncomputable def auto_detect_open_sector_claim (pts : List ScanPoint) :
    Option (Option (ℝ × ℝ)) :=
  let rvals := (pts.map (fun p => p.dist)).filter (fun d => d ≠ 0)
  if rvals.length = 0 then none
  else
    let radius := ((rvals.sum : ℤ) : ℝ) / (rvals.length : ℝ) * 1.5
    match open_sectors pts radius with
    | none => none
    | some sectors =>
        match sectors.find? (fun s => s.1 - s.2 > 12) with
        | some s =>
            some (some (p2r (radius * 0.7) (((s.1 : ℝ) + (s.2 : ℝ)) / 2)))
        | none => some none

/-- Concrete scan: two points at 30 cm, angles 90° and 45°. -/
noncomputable def pts8 : List ScanPoint :=
  [⟨30, Real.pi / 2⟩, ⟨30, Real.pi / 4⟩]

/-- Concrete scan: a single obstructed point at 5 cm, angle 0. -/
noncomputable def pts10 : List ScanPoint :=
  [⟨5, 0⟩]

/-- Concrete scan for the sector-target computation: two far points at
200 cm (angles 90° and 45°) and two near points at 10 cm. -/
noncomputable def pts7 : List ScanPoint :=
  [⟨200, Real.pi / 2⟩, ⟨200, Real.pi / 4⟩, ⟨10, 0⟩, ⟨10, 0⟩]

/-- Concrete scan exposing the filter discrepancy: a zero-distance point
(angle 90°) followed by a 30 cm point (angle 0°). -/
noncomputable def ptsX7 : List ScanPoint :=
  [⟨0, Real.pi / 2⟩, ⟨30, 0⟩]

/-! ## Wall alignment (src/operate.py `get_closest_line_params`,
`align_to_wall`, `square_to_wall`; src/proscan.py
`ProcessScan.segments_in_region`, `ProcessScan.get_line_parameters`) -/

/-- The per-segment body of `ProcessScan.get_line_parameters`: the
"clad" tuple `(coords, length, angle, distance)` for the line through a
segment's two endpoint coordinates.  `operate.get_closest_line_params`
calls `get_line_parameters(longest_segment)` with this one segment;
src/proscan.py's copy of the method takes no segment argument, so the
segment-parameterized form is spec-modelled from §4.8/§3
(LineParameters computed per segment on demand) with the body of the
src loop. -/
noncomputable def line_params_of_segment (pts : List Point) (seg : ℕ × ℕ) :
    ((ℝ × ℝ) × (ℝ × ℝ)) × ℝ × ℝ × ℝ :=
  let start_coords := (pts.getD seg.1 pt0).xy
  let end_coords := (pts.getD seg.2 pt0).xy
  let line := cnvrt_2pts_to_coef start_coords end_coords
  ((start_coords, end_coords), p2p_dist start_coords end_coords,
   p2p_angle start_coords end_coords, p2line_dist (0, 0) line)

/-- Embedding of `ProcessScan.segments_in_region`: the segments whose
start index lies in region `indx`'s index range, sorted longest first
(by index span `segment[-1] - segment[0]`; the source sorts ascending by
span and reverses). -/
noncomputable def segments_in_region (ps : PScan) (indx : ℕ) :
    List (ℕ × ℕ) :=
  let region := ps.regions.getD indx (0, 0)
  let seg_len := (ps.segments.filter
      (fun s => region.1 ≤ s.1 ∧ s.1 ≤ region.2)).map
      (fun s => (s, (s.2 : ℤ) - (s.1 : ℤ)))
  ((List.insertionSort (fun a b : (ℕ × ℕ) × ℤ => a.2 ≤ b.2)
      seg_len).reverse).map (fun p => p.1)

/-- Distance of a region from the car: the smallest measured point
distance inside the region's index range (helper for the spec-modelled
`closest_region`). -/
noncomputable def region_dist (ps : PScan) (region : ℕ × ℕ) : ℤ :=
  ((List.range' region.1 (region.2 + 1 - region.1)).map
    (fun i => (ps.points.getD i pt0).dist)).foldl min
    (ps.points.getD region.1 pt0).dist

/-- Index search for the first region of minimal `region_dist`. -/
noncomputable def crAux (ps : PScan) : List (ℕ × ℕ) → ℕ → ℤ → ℕ → ℕ
  | [], best, _, _ => best
  | r :: rs, best, bestd, n =>
    if region_dist ps r < bestd then crAux ps rs n (region_dist ps r) (n + 1)
    else crAux ps rs best bestd (n + 1)

/-- Modelled from the spec: `ProcessScan.closest_region` is called by
`operate.get_closest_line_params` but is absent from src/proscan.py.
Per §4.8 ("AlignToWall …: select the nearest region's dominant
segment"), it returns the index of the region nearest the car — the
first region of minimal `region_dist` — or `none` when there are no
regions. -/
noncomputable def closest_region (ps : PScan) : Option ℕ :=
  match ps.regions with
  | [] => none
  | r :: rs => some (crAux ps rs 0 (region_dist ps r) 1)

/-- Embedding of `operate.get_closest_line_params` applied to a
processed scan (`save_scan` performs the hardware scan; `ProcessScan`
produces `ps`): the line parameters of the first — longest — segment of
the closest region.  `none` models the unhandled `IndexError` of
`segments_in_region(...)[0]` on an empty segment list (or no region). -/
noncomputable def get_closest_line_params (ps : PScan) :
    Option (((ℝ × ℝ) × (ℝ × ℝ)) × ℝ × ℝ × ℝ) :=
  match closest_region ps with
  | none => none
  | some i =>
      match segments_in_region ps i with
      | [] => none
      | seg :: _ => some (line_params_of_segment ps.points seg)

/-- Embedding of the target-heading computation of
`operate.align_to_wall`: take the most salient line of the closest
region of one scan and command `turn_to(heading - angle + 90)`. -/
noncomputable def align_to_wall_target (ps : PScan) (heading : ℝ) :
    Option ℝ :=
  match get_closest_line_params ps with
  | none => none
  | some clad => some (heading - clad.2.2.1 + 90)

/-- Embedding of the target-heading computation of
`operate.square_to_wall`: `turn_to(heading - angle)`. -/
noncomputable def square_to_wall_target (ps : PScan) (heading : ℝ) :
    Option ℝ :=
  match get_closest_line_params ps with
  | none => none
  | some clad => some (heading - clad.2.2.1)

instance spanRelTotal :
    IsTotal ((ℕ × ℕ) × ℤ) (fun a b => a.2 ≤ b.2) :=
  ⟨fun a b => le_total a.2 b.2⟩

instance spanRelTrans :
    IsTrans ((ℕ × ℕ) × ℤ) (fun a b => a.2 ≤ b.2) :=
  ⟨fun _ _ _ h1 h2 => le_trans h1 h2⟩

/-- A minimal processed-scan state: two points, one region `(0, 1)`,
and its single segment `(0, 1)`. -/
noncomputable def psW : PScan :=
  ⟨[pt0, pt0], [(0, 1)], [(0, 1)], []⟩

/-! ## Theorems -/

theorem p2p_dist_self (p : ℝ × ℝ) : p2p_dist p p = 0 := by
  simp [p2p_dist]

/-- Closed form: for a non-degenerate line the distance is
`|a*x + b*y + c| / sqrt (a² + b²)`. -/
theorem p2line_dist_formula (a b c x y : ℝ) (h : a ^ 2 + b ^ 2 ≠ 0) :
    p2line_dist (x, y) (a, b, c) =
      |a * x + b * y + c| / Real.sqrt (a ^ 2 + b ^ 2) := by
  have hD : (0:ℝ) < a ^ 2 + b ^ 2 := by
    rcases lt_or_eq_of_le (by positivity : (0:ℝ) ≤ a ^ 2 + b ^ 2) with h' | h'
    · exact h'
    · exact absurd h'.symm h
  unfold p2line_dist proj_pt_on_line p2p_dist
  simp only [if_neg h]
  have hx : x - (b ^ 2 * x - a * b * y - a * c) / (a ^ 2 + b ^ 2)
      = a * (a * x + b * y + c) / (a ^ 2 + b ^ 2) := by
    field_simp
    ring
  have hy : y - (a ^ 2 * y - a * b * x - b * c) / (a ^ 2 + b ^ 2)
      = b * (a * x + b * y + c) / (a ^ 2 + b ^ 2) := by
    field_simp
    ring
  simp only at hx hy ⊢
  rw [hx, hy]
  have hsum : (a * (a * x + b * y + c) / (a ^ 2 + b ^ 2)) ^ 2
      + (b * (a * x + b * y + c) / (a ^ 2 + b ^ 2)) ^ 2
      = (a * x + b * y + c) ^ 2 / (a ^ 2 + b ^ 2) := by
    field_simp
    ring
  rw [hsum, Real.sqrt_div (by positivity), Real.sqrt_sq_eq_abs]

/-- A point lies at distance zero from any line through itself (this
includes the degenerate guarded case of two coincident points). -/
theorem p2line_dist_fst_pt (p q : ℝ × ℝ) :
    p2line_dist p (cnvrt_2pts_to_coef p q) = 0 := by
  rcases p with ⟨x1, y1⟩
  rcases q with ⟨x2, y2⟩
  by_cases h : (y2 - y1) ^ 2 + (x1 - x2) ^ 2 = 0
  · unfold p2line_dist proj_pt_on_line cnvrt_2pts_to_coef
    simp only [h, if_pos rfl]
    exact p2p_dist_self _
  · rw [show cnvrt_2pts_to_coef (x1, y1) (x2, y2)
        = (y2 - y1, x1 - x2, x2 * y1 - x1 * y2) from rfl]
    rw [p2line_dist_formula _ _ _ _ _ h]
    have : (y2 - y1) * x1 + (x1 - x2) * y1 + (x2 * y1 - x1 * y2) = 0 := by
      ring
    rw [this]
    simp

theorem loop_avg_succ_self (pts : ℕ → ℝ × ℝ) (i : ℕ) :
    loop_avg pts i (i + 1) = 0 := by
  unfold loop_avg find_sum_of_sq_dist_to_line
  have hIco : Finset.Ico i (i + 1) = {i} := by
    rw [Nat.Ico_succ_right, Finset.Icc_self]
  simp [hIco, p2line_dist_fst_pt]

theorem flsAsc_unfold (pts : ℕ → ℝ × ℝ) (fit : ℝ) (istrt iend istop : ℕ)
    (avg : ℝ) :
    flsAsc pts fit istrt iend istop avg =
      if avg < fit then
        if istop + 1 > iend then istop
        else flsAsc pts fit istrt iend (istop + 1)
          (loop_avg pts istrt (istop + 1))
      else istop - 1 := by
  rw [flsAsc]

theorem flsAsc_spec (pts : ℕ → ℝ × ℝ) (fit : ℝ) (istrt iend : ℕ)
    (n : ℕ) :
    ∀ istop avg, iend - istop ≤ n → istop ≤ iend → avg < fit →
      istop ≤ flsAsc pts fit istrt iend istop avg ∧
      flsAsc pts fit istrt iend istop avg ≤ iend ∧
      (∀ k, istop < k → k ≤ flsAsc pts fit istrt iend istop avg →
        loop_avg pts istrt k < fit) ∧
      (flsAsc pts fit istrt iend istop avg = iend ∨
        ¬ loop_avg pts istrt (flsAsc pts fit istrt iend istop avg + 1) < fit) := by
  induction n with
  | zero =>
    intro istop avg hn hle havg
    have hstop : istop = iend := by omega
    rw [flsAsc_unfold, if_pos havg, if_pos (by omega)]
    exact ⟨le_refl _, le_of_eq hstop, fun k hk1 hk2 => absurd hk1 (by omega),
      Or.inl hstop⟩
  | succ n ih =>
    intro istop avg hn hle havg
    by_cases hend : istop + 1 > iend
    · have hstop : istop = iend := by omega
      rw [flsAsc_unfold, if_pos havg, if_pos hend]
      exact ⟨le_refl _, le_of_eq hstop, fun k hk1 hk2 => absurd hk1 (by omega),
        Or.inl hstop⟩
    · rw [flsAsc_unfold, if_pos havg, if_neg hend]
      by_cases havg' : loop_avg pts istrt (istop + 1) < fit
      · obtain ⟨h1, h2, h3, h4⟩ :=
          ih (istop + 1) (loop_avg pts istrt (istop + 1)) (by omega) (by omega)
            havg'
        refine ⟨by omega, h2, ?_, h4⟩
        intro k hk1 hk2
        rcases Nat.lt_or_ge istop.succ k with hk | hk
        · exact h3 k hk hk2
        · have : k = istop + 1 := by omega
          rw [this]; exact havg'
      · rw [flsAsc_unfold, if_neg havg']
        have hr : istop + 1 - 1 = istop := by omega
        rw [hr]
        exact ⟨le_refl _, hle, fun k hk1 hk2 => absurd hk1 (by omega),
          Or.inr (by simpa using havg')⟩

/-- Full characterization of the ascending `_find_line_segment` search:
for `begin_idx < end_idx` and a positive fit threshold, the returned
index `r` satisfies `begin_idx < r ≤ end_idx`, every mean distance
checked on the way up to `r` was below `fit`, and either `r` reached
`end_idx` or the fit failed at the next candidate `r + 1`. -/
theorem find_line_segment_asc_char (pts : ℕ → ℝ × ℝ) (fit : ℝ)
    (begin_idx end_idx : ℕ) (hbe : begin_idx < end_idx) (hfit : 0 < fit) :
    begin_idx < find_line_segment pts fit begin_idx end_idx ∧
    find_line_segment pts fit begin_idx end_idx ≤ end_idx ∧
    (∀ k, begin_idx < k → k ≤ find_line_segment pts fit begin_idx end_idx →
      loop_avg pts begin_idx k < fit) ∧
    (find_line_segment pts fit begin_idx end_idx = end_idx ∨
      ¬ loop_avg pts begin_idx
          (find_line_segment pts fit begin_idx end_idx + 1) < fit) := by
  have hdef : find_line_segment pts fit begin_idx end_idx
      = flsAsc pts fit begin_idx end_idx begin_idx 0 := by
    unfold find_line_segment
    rw [if_pos hbe]
  obtain ⟨h1, h2, h3, h4⟩ :=
    flsAsc_spec pts fit begin_idx end_idx end_idx begin_idx 0 (by omega)
      (le_of_lt hbe) hfit
  rw [hdef]
  refine ⟨?_, h2, h3, h4⟩
  rcases Nat.lt_or_ge begin_idx (flsAsc pts fit begin_idx end_idx begin_idx 0)
    with h | h
  · exact h
  · exfalso
    have heq : flsAsc pts fit begin_idx end_idx begin_idx 0 = begin_idx := by
      omega
    rcases h4 with h4 | h4
    · omega
    · rw [heq, loop_avg_succ_self] at h4
      exact h4 hfit

theorem flsAscClaim_unfold (pts : ℕ → ℝ × ℝ) (fit : ℝ)
    (istrt iend istop : ℕ) (avg : ℝ) :
    flsAscClaim pts fit istrt iend istop avg =
      if avg < fit then
        if istop + 1 > iend then istop
        else flsAscClaim pts fit istrt iend (istop + 1)
          (strict_between_avg pts istrt (istop + 1))
      else istop - 1 := by
  rw [flsAscClaim]

theorem fcGo_self (pts : ℕ → ℝ × ℝ) (fit : ℝ) (idx1 fuel : ℕ) :
    fcGo pts fit idx1 fuel idx1 = [] := by
  cases fuel with
  | zero => rfl
  | succ n => simp [fcGo]

theorem fcGo_spec (pts : ℕ → ℝ × ℝ) (fit : ℝ) (idx1 : ℕ) (hfit : 0 < fit) :
    ∀ fuel start_idx, start_idx < idx1 → idx1 - start_idx < fuel →
      fcGo pts fit idx1 fuel start_idx ≠ [] ∧
      List.Chain' (· < ·) (start_idx :: fcGo pts fit idx1 fuel start_idx) ∧
      (fcGo pts fit idx1 fuel start_idx).getLast? = some idx1 ∧
      ∀ c ∈ fcGo pts fit idx1 fuel start_idx, c ≤ idx1 := by
  intro fuel
  induction fuel with
  | zero => intro s h1 h2; omega
  | succ fuel ih =>
    intro s h1 h2
    obtain ⟨hc1, hc2, _, _⟩ := find_line_segment_asc_char pts fit s idx1 h1 hfit
    have hne : s ≠ idx1 := by omega
    rw [fcGo, if_neg hne]
    set c := find_line_segment pts fit s idx1 with hc
    rcases Nat.lt_or_ge c idx1 with hcl | hcl
    · obtain ⟨ih1, ih2, ih3, ih4⟩ := ih c hcl (by omega)
      obtain ⟨x, xs, hxs⟩ := List.exists_cons_of_ne_nil ih1
      refine ⟨by simp, ?_, ?_, ?_⟩
      · exact List.Chain'.cons hc1 ih2
      · rw [hxs, List.getLast?_cons_cons, ← hxs]
        exact ih3
      · intro d hd
        rcases List.mem_cons.mp hd with rfl | hd
        · exact hc2
        · exact ih4 d hd
    · have hceq : c = idx1 := by omega
      rw [hceq, fcGo_self]
      refine ⟨by simp, ?_, by simp, by simp⟩
      exact List.chain'_pair.mpr (by omega)

theorem loop_avg_eq (pts : ℕ → ℝ × ℝ) (istrt istop : ℕ) (h : istrt ≤ istop) :
    loop_avg pts istrt istop =
      (∑ i ∈ Finset.Ico istrt istop,
        p2line_dist (pts i) (cnvrt_2pts_to_coef (pts istrt) (pts istop)))
      / ((istop - istrt : ℕ) : ℝ) := by
  unfold loop_avg find_sum_of_sq_dist_to_line
  simp only [if_neg (by omega : ¬ istop < istrt)]

theorem zip_tail_chain (l : List ℕ) :
    ∀ a : ℕ, List.Chain' (fun s t : ℕ × ℕ => s.2 = t.1) ((a :: l).zip l) := by
  induction l with
  | nil => intro a; simp
  | cons x xs ih =>
    intro a
    rw [List.zip_cons_cons]
    cases xs with
    | nil => simp
    | cons y ys =>
      have h := ih x
      rw [List.zip_cons_cons] at h ⊢
      exact List.Chain'.cons rfl h

theorem zip_tail_last (l : List ℕ) :
    ∀ a : ℕ, l ≠ [] →
      ((a :: l).zip l).getLast?.map Prod.snd = l.getLast? := by
  induction l with
  | nil => intro a h; exact absurd rfl h
  | cons x xs ih =>
    intro a _
    cases xs with
    | nil => simp
    | cons y ys =>
      rw [List.zip_cons_cons, List.zip_cons_cons, List.getLast?_cons_cons,
        List.getLast?_cons_cons]
      have h := ih x (by simp)
      rw [List.zip_cons_cons] at h
      exact h

theorem zip_tail_rel {r : ℕ → ℕ → Prop} :
    ∀ (l : List ℕ) (a : ℕ), List.Chain' r (a :: l) →
      ∀ p ∈ (a :: l).zip l, r p.1 p.2 := by
  intro l
  induction l with
  | nil => intro a _ p hp; simp at hp
  | cons x xs ih =>
    intro a hchain p hp
    rw [List.zip_cons_cons] at hp
    rcases List.mem_cons.mp hp with rfl | hp
    · exact (List.chain'_cons.mp hchain).1
    · exact ih x (List.chain'_cons.mp hchain).2 p hp

/-- Characterization of `_generate_segments` on one region `(i0, i1)`
with `i0 < i1` and a positive fit threshold: the emitted segments are
exactly the consecutive pairs of `i0 :: corners` (which is the sorted
union of the forward corners with the region's endpoints), they start at
`i0`, end at `i1`, are contiguous, and strictly ascend. -/
theorem generate_segments_for_region_char (pts : ℕ → ℝ × ℝ) (fit : ℝ)
    (i0 i1 : ℕ) (h01 : i0 < i1) (hfit : 0 < fit) :
    generate_segments_for_region pts fit (i0, i1)
        = (i0 :: find_corners pts fit (i0, i1)).zip
            (find_corners pts fit (i0, i1)) ∧
    (generate_segments_for_region pts fit (i0, i1)).head?.map Prod.fst
        = some i0 ∧
    (generate_segments_for_region pts fit (i0, i1)).getLast?.map Prod.snd
        = some i1 ∧
    List.Chain' (fun s t : ℕ × ℕ => s.2 = t.1)
      (generate_segments_for_region pts fit (i0, i1)) ∧
    ∀ p ∈ generate_segments_for_region pts fit (i0, i1), p.1 < p.2 := by
  have hfc : find_corners pts fit (i0, i1)
      = fcGo pts fit i1 (i1 - i0 + 1) i0 := rfl
  obtain ⟨hne, hch, hlast, _⟩ :=
    fcGo_spec pts fit i1 hfit (i1 - i0 + 1) i0 h01 (by omega)
  rw [← hfc] at hne hch hlast
  set cs := find_corners pts fit (i0, i1) with hcs
  have hpw : List.Pairwise (· < ·) (i0 :: cs) :=
    List.chain'_iff_pairwise.mp hch
  have hgt : ∀ x ∈ cs, i0 < x := (List.pairwise_cons.mp hpw).1
  have hi0 : i0 ∉ cs := fun h => lt_irrefl _ (hgt _ h)
  have hi1 : i1 ∈ cs := by
    obtain ⟨x, xs, hxs⟩ := List.exists_cons_of_ne_nil hne
    have := List.getLast?_eq_getLast (l := cs) (by rw [hxs]; simp)
    rw [this] at hlast
    have hx := List.getLast_mem (l := cs) (by rw [hxs]; simp)
    rwa [Option.some_inj.mp hlast] at hx
  have hsorted : List.insertionSort (· ≤ ·) (cs ++ [i0]) = i0 :: cs := by
    refine List.eq_of_perm_of_sorted
      ((List.perm_insertionSort _ _).trans (List.perm_append_singleton i0 cs))
      (List.sorted_insertionSort _ _) ?_
    exact hpw.imp (fun h => le_of_lt h)
  have hmain : generate_segments_for_region pts fit (i0, i1)
      = (i0 :: cs).zip cs := by
    unfold generate_segments_for_region
    simp only [← hcs]
    rw [if_neg hi0, if_pos (List.mem_append_left _ hi1), hsorted]
    rfl
  obtain ⟨x, xs, hxs⟩ := List.exists_cons_of_ne_nil hne
  refine ⟨hmain, ?_, ?_, ?_, ?_⟩
  · rw [hmain, hxs, List.zip_cons_cons]
    rfl
  · rw [hmain, zip_tail_last cs i0 hne, hlast]
  · rw [hmain]; exact zip_tail_chain cs i0
  · rw [hmain]; exact zip_tail_rel cs i0 hch

theorem ptsCEX_dist1 :
    p2line_dist (ptsCEX 1) (cnvrt_2pts_to_coef (ptsCEX 0) (ptsCEX 2)) = 5 := by
  have h0 : ptsCEX 0 = (0, 0) := rfl
  have h1 : ptsCEX 1 = (5, 5) := rfl
  have h2 : ptsCEX 2 = (10, 0) := rfl
  rw [h0, h1, h2]
  have hline : cnvrt_2pts_to_coef ((0:ℝ), (0:ℝ)) (10, 0) = (0, -10, 0) := by
    unfold cnvrt_2pts_to_coef
    norm_num
  rw [hline, p2line_dist_formula 0 (-10) 0 5 5 (by norm_num)]
  rw [show (0:ℝ)^2 + (-10:ℝ)^2 = 10^2 by norm_num,
    Real.sqrt_sq (by norm_num : (0:ℝ) ≤ 10)]
  norm_num

theorem ptsCEX_loop_avg_2 : loop_avg ptsCEX 0 2 = 5 / 2 := by
  rw [loop_avg_eq ptsCEX 0 2 (by omega), ← Finset.range_eq_Ico,
    Finset.sum_range_succ, Finset.sum_range_succ, Finset.sum_range_zero,
    p2line_dist_fst_pt, ptsCEX_dist1]
  norm_num

theorem ptsCEX_sba_1 : strict_between_avg ptsCEX 0 1 = 0 := by
  unfold strict_between_avg
  simp

theorem ptsCEX_sba_2 : strict_between_avg ptsCEX 0 2 = 5 := by
  unfold strict_between_avg
  have hIco : Finset.Ico (0 + 1) 2 = {1} := by
    rw [Nat.Ico_succ_right, Finset.Icc_self]
  rw [hIco, Finset.sum_singleton, ptsCEX_dist1]
  norm_num

/-- Claim C1 (amended): `find_line_segment(begin, end)` with
`begin < end` (and positive `FIT`) extends a candidate endpoint one
index at a time from `begin` toward `end`; at each extension it forms
the line through `points[begin]` and the candidate and computes the mean
perpendicular distance to that line of the points from `begin`
(inclusive — its own distance is zero) up to but excluding the
candidate, i.e. the sum of the distances of the points strictly between
divided by `candidate - begin`; it continues while this mean stays below
`FIT`, stops the first time the mean reaches or exceeds `FIT` or the
candidate passes `end`, and returns the last index for which the fit
still held. -/
theorem C1_find_line_segment_greedy (pts : ℕ → ℝ × ℝ) (fit : ℝ)
    (begin_idx end_idx : ℕ) (hbe : begin_idx < end_idx) (hfit : 0 < fit) :
    begin_idx < find_line_segment pts fit begin_idx end_idx ∧
    find_line_segment pts fit begin_idx end_idx ≤ end_idx ∧
    (∀ k, begin_idx < k → k ≤ find_line_segment pts fit begin_idx end_idx →
      (∑ i ∈ Finset.Ico begin_idx k,
        p2line_dist (pts i) (cnvrt_2pts_to_coef (pts begin_idx) (pts k)))
        / ((k - begin_idx : ℕ) : ℝ) < fit) ∧
    (find_line_segment pts fit begin_idx end_idx = end_idx ∨
      ¬ (∑ i ∈ Finset.Ico begin_idx
            (find_line_segment pts fit begin_idx end_idx + 1),
          p2line_dist (pts i) (cnvrt_2pts_to_coef (pts begin_idx)
            (pts (find_line_segment pts fit begin_idx end_idx + 1))))
          / (((find_line_segment pts fit begin_idx end_idx + 1)
              - begin_idx : ℕ) : ℝ) < fit) := by
  obtain ⟨h1, h2, h3, h4⟩ :=
    find_line_segment_asc_char pts fit begin_idx end_idx hbe hfit
  refine ⟨h1, h2, ?_, ?_⟩
  · intro k hk1 hk2
    rw [← loop_avg_eq pts begin_idx k (by omega)]
    exact h3 k hk1 hk2
  · rcases h4 with h4 | h4
    · exact Or.inl h4
    · refine Or.inr ?_
      rw [← loop_avg_eq pts begin_idx _ (by omega)]
      exact h4

/-- Witness for `C1_find_line_segment_greedy` at the concrete points
`ptsCEX` with `begin = 0`, `end = 2`, `FIT = 3`. -/
theorem C1_witness :
    (0:ℕ) < 2 ∧ (0:ℝ) < 3 ∧
    (0 < find_line_segment ptsCEX 3 0 2 ∧
    find_line_segment ptsCEX 3 0 2 ≤ 2 ∧
    (∀ k, 0 < k → k ≤ find_line_segment ptsCEX 3 0 2 →
      (∑ i ∈ Finset.Ico 0 k,
        p2line_dist (ptsCEX i) (cnvrt_2pts_to_coef (ptsCEX 0) (ptsCEX k)))
        / ((k - 0 : ℕ) : ℝ) < 3) ∧
    (find_line_segment ptsCEX 3 0 2 = 2 ∨
      ¬ (∑ i ∈ Finset.Ico 0 (find_line_segment ptsCEX 3 0 2 + 1),
          p2line_dist (ptsCEX i) (cnvrt_2pts_to_coef (ptsCEX 0)
            (ptsCEX (find_line_segment ptsCEX 3 0 2 + 1))))
          / (((find_line_segment ptsCEX 3 0 2 + 1) - 0 : ℕ) : ℝ) < 3)) :=
  ⟨by norm_num, by norm_num,
    C1_find_line_segment_greedy ptsCEX 3 0 2 (by norm_num) (by norm_num)⟩

/-- Counterexample to claim C1 as stated: on `ptsCEX` with `FIT = 3`,
the source loop (which averages over the points from `begin` inclusive,
dividing by `candidate - begin`) returns index 2, while the loop that
averages over the points strictly between `begin` and the candidate
(dividing by their count, as the claim words it) stops earlier and
returns index 1. -/
theorem C1_counterexample :
    find_line_segment ptsCEX 3 0 2 = 2 ∧
    find_line_segment_claim ptsCEX 3 0 2 = 1 := by
  constructor
  · unfold find_line_segment
    rw [if_pos (by omega : (0:ℕ) < 2)]
    rw [flsAsc_unfold, if_pos (by norm_num : (0:ℝ) < 3),
      if_neg (by omega : ¬ 0 + 1 > 2), loop_avg_succ_self,
      show (0:ℕ) + 1 = 1 from rfl]
    rw [flsAsc_unfold, if_pos (by norm_num : (0:ℝ) < 3),
      if_neg (by omega : ¬ 1 + 1 > 2), show (1:ℕ) + 1 = 2 from rfl,
      ptsCEX_loop_avg_2]
    rw [flsAsc_unfold, if_pos (by norm_num : (5:ℝ)/2 < 3),
      if_pos (by omega : 2 + 1 > 2)]
  · unfold find_line_segment_claim
    rw [flsAscClaim_unfold, if_pos (by norm_num : (0:ℝ) < 3),
      if_neg (by omega : ¬ 0 + 1 > 2), show (0:ℕ) + 1 = 1 from rfl,
      ptsCEX_sba_1]
    rw [flsAscClaim_unfold, if_pos (by norm_num : (0:ℝ) < 3),
      if_neg (by omega : ¬ 1 + 1 > 2), show (1:ℕ) + 1 = 2 from rfl,
      ptsCEX_sba_2]
    rw [flsAscClaim_unfold, if_neg (by norm_num : ¬ (5:ℝ) < 3)]

/-- Claim C5: for every region `(idx0, idx1)` with `idx0 < idx1` (and a
positive fit threshold), the segments emitted for the region are exactly
the consecutive pairs of the sorted union of the region endpoints with
the forward-pass corners (`idx0 :: corners`, since the forward corners
strictly ascend from above `idx0` to `idx1`); the first segment starts
at `idx0`, the last ends at `idx1`, each segment starts where the
previous one ends, and every segment strictly ascends — the segments
tile the region without gaps or overlaps.  Only the forward corners are
used (`find_corners` returns `corners_fwd`; the reverse pass is
discarded by the source). -/
theorem C5_segments_tile_region (pts : ℕ → ℝ × ℝ) (fit : ℝ)
    (idx0 idx1 : ℕ) (h01 : idx0 < idx1) (hfit : 0 < fit) :
    generate_segments_for_region pts fit (idx0, idx1)
        = (idx0 :: find_corners pts fit (idx0, idx1)).zip
            (find_corners pts fit (idx0, idx1)) ∧
    (generate_segments_for_region pts fit (idx0, idx1)).head?.map Prod.fst
        = some idx0 ∧
    (generate_segments_for_region pts fit (idx0, idx1)).getLast?.map Prod.snd
        = some idx1 ∧
    List.Chain' (fun s t : ℕ × ℕ => s.2 = t.1)
      (generate_segments_for_region pts fit (idx0, idx1)) ∧
    ∀ p ∈ generate_segments_for_region pts fit (idx0, idx1), p.1 < p.2 :=
  generate_segments_for_region_char pts fit idx0 idx1 h01 hfit

/-- Witness for `C5_segments_tile_region` on the concrete region
`(0, 2)` of `ptsCEX` with `FIT = 3`. -/
theorem C5_witness :
    (0:ℕ) < 2 ∧ (0:ℝ) < 3 ∧
    (generate_segments_for_region ptsCEX 3 (0, 2)
        = (0 :: find_corners ptsCEX 3 (0, 2)).zip
            (find_corners ptsCEX 3 (0, 2)) ∧
    (generate_segments_for_region ptsCEX 3 (0, 2)).head?.map Prod.fst
        = some 0 ∧
    (generate_segments_for_region ptsCEX 3 (0, 2)).getLast?.map Prod.snd
        = some 2 ∧
    List.Chain' (fun s t : ℕ × ℕ => s.2 = t.1)
      (generate_segments_for_region ptsCEX 3 (0, 2)) ∧
    ∀ p ∈ generate_segments_for_region ptsCEX 3 (0, 2), p.1 < p.2) :=
  ⟨by norm_num, by norm_num,
    C5_segments_tile_region ptsCEX 3 0 2 (by norm_num) (by norm_num)⟩

theorem grAux_exit (LEV HEV : ℤ) (GAP : ℚ) (pts : List Point)
    (n s : ℕ) (d : ℚ) (regs : List (ℕ × ℕ)) (hn : ¬ n < pts.length) :
    grAux LEV HEV GAP pts n s d regs = (regs, n - 1, s) := by
  rw [grAux, if_neg hn]

theorem grAux_step_in_window (LEV HEV : ℤ) (GAP : ℚ) (pts : List Point)
    (n s : ℕ) (d : ℚ) (regs : List (ℕ × ℕ)) (hn : n < pts.length)
    (h1 : LEV ≤ (pts.getD n pt0).enc_val)
    (h2 : (pts.getD n pt0).enc_val ≤ HEV) :
    grAux LEV HEV GAP pts n s d regs =
      if gapQ pts n > GAP * ((pts.getD n pt0).dist : ℚ) / 100 then
        grAux LEV HEV GAP pts (n + 1) n (gapQ pts n)
          (if n > s + 1 then regs ++ [(s, n - 1)] else regs)
      else grAux LEV HEV GAP pts (n + 1) s (gapQ pts n) regs := by
  rw [grAux]
  simp only [if_pos hn, if_neg (by omega : ¬ (pts.getD n pt0).enc_val > HEV),
    if_neg (by omega : ¬ (pts.getD n pt0).enc_val < LEV)]

theorem grAux_skip (LEV HEV : ℤ) (GAP : ℚ) (pts : List Point) :
    ∀ j a, 1 ≤ j → a + j ≤ pts.length →
      (∀ i, a ≤ i → i < a + j →
        LEV ≤ (pts.getD i pt0).enc_val ∧ (pts.getD i pt0).enc_val ≤ HEV ∧
        ¬ gapQ pts i > GAP * ((pts.getD i pt0).dist : ℚ) / 100) →
      ∀ s d regs, grAux LEV HEV GAP pts a s d regs
        = grAux LEV HEV GAP pts (a + j) s (gapQ pts (a + j - 1)) regs := by
  intro j
  induction j with
  | zero => intro a h1; omega
  | succ j ihj =>
    intro a h1 h2 h3 s d regs
    obtain ⟨hw1, hw2, hw3⟩ := h3 a (le_refl a) (by omega)
    rw [grAux_step_in_window LEV HEV GAP pts a s d regs (by omega) hw1 hw2,
      if_neg hw3]
    rcases Nat.eq_zero_or_pos j with hj | hj
    · subst hj
      have he : a + 1 - 1 = a := by omega
      rw [he]
    · have hrec := ihj (a + 1) hj (by omega)
        (fun i hi1 hi2 => h3 i (by omega) (by omega)) s (gapQ pts a) regs
      have he1 : a + 1 + j = a + (j + 1) := by omega
      rw [he1] at hrec
      exact hrec

/-- Claim C9: constructing `ProcessScan` on an empty raw-sample sequence
raises an unhandled error (modelled as `none`) rather than producing
empty points/regions/segments lists: `_generate_regions` reads its loop
variable after iterating zero points. -/
theorem C9_empty_scan_errors (LEV HEV : ℤ) (GAP : ℚ) (FIT : ℝ) :
    process_scan_init LEV HEV GAP FIT [] = none ∧
    generate_regions LEV HEV GAP (generate_points []) = none := by
  have hpts : generate_points [] = [] := rfl
  have hregs : generate_regions LEV HEV GAP ([] : List Point) = none := by
    unfold generate_regions
    simp
  constructor
  · unfold process_scan_init
    simp only [hpts, hregs]
  · rw [hpts, hregs]

/-- Claim C6: for every point sequence forming two clusters — a first
cluster of `k ≥ 2` points followed by a second cluster of at least two
points, all encoder values inside the `[LEV, HEV]` window — where the
single inter-cluster gap (at index `k`) exceeds `GAP * dist / 100` and
no intra-cluster gap does, `_generate_regions` returns exactly the two
disjoint index ranges `(0, k-1)` and `(k, last)`, which together cover
all points. -/
theorem C6_two_clusters_two_regions (LEV HEV : ℤ) (GAP : ℚ)
    (pts : List Point) (k : ℕ) (hk : 2 ≤ k) (hk2 : k + 2 ≤ pts.length)
    (hwin : ∀ i, i < pts.length →
      LEV ≤ (pts.getD i pt0).enc_val ∧ (pts.getD i pt0).enc_val ≤ HEV)
    (hintra : ∀ i, 1 ≤ i → i < pts.length → i ≠ k →
      ¬ gapQ pts i > GAP * ((pts.getD i pt0).dist : ℚ) / 100)
    (hinter : gapQ pts k > GAP * ((pts.getD k pt0).dist : ℚ) / 100) :
    generate_regions LEV HEV GAP pts
      = some [(0, k - 1), (k, pts.length - 1)] := by
  have hlen : 0 < pts.length := by omega
  have hne : ¬ pts.isEmpty := by
    cases pts with
    | nil => simp at hlen
    | cons x xs => simp
  -- iteration 0: whether or not the wrap-around gap triggers, the state
  -- entering iteration 1 is the same
  have h0 : grAux LEV HEV GAP pts 0 0 0 []
      = grAux LEV HEV GAP pts 1 0 (gapQ pts 0) [] := by
    obtain ⟨hw1, hw2⟩ := hwin 0 (by omega)
    rw [grAux_step_in_window LEV HEV GAP pts 0 0 0 [] (by omega) hw1 hw2]
    split
    · simp
    · rfl
  -- iterations 1 … k-1: no trigger inside the first cluster
  have h1 : grAux LEV HEV GAP pts 1 0 (gapQ pts 0) []
      = grAux LEV HEV GAP pts k 0 (gapQ pts (k - 1)) [] := by
    have := grAux_skip LEV HEV GAP pts (k - 1) 1 (by omega) (by omega)
      (fun i hi1 hi2 => by
        obtain ⟨hw1, hw2⟩ := hwin i (by omega)
        exact ⟨hw1, hw2, hintra i hi1 (by omega) (by omega)⟩)
      0 (gapQ pts 0) []
    have he : 1 + (k - 1) = k := by omega
    rw [he] at this
    exact this
  -- iteration k: the inter-cluster gap triggers and emits (0, k-1)
  have h2 : grAux LEV HEV GAP pts k 0 (gapQ pts (k - 1)) []
      = grAux LEV HEV GAP pts (k + 1) k (gapQ pts k) [(0, k - 1)] := by
    obtain ⟨hw1, hw2⟩ := hwin k (by omega)
    rw [grAux_step_in_window LEV HEV GAP pts k 0 _ [] (by omega) hw1 hw2,
      if_pos hinter, if_pos (by omega : k > 0 + 1)]
    rfl
  -- iterations k+1 … length-1: no trigger inside the second cluster
  have h3 : grAux LEV HEV GAP pts (k + 1) k (gapQ pts k) [(0, k - 1)]
      = grAux LEV HEV GAP pts pts.length k
          (gapQ pts (pts.length - 1)) [(0, k - 1)] := by
    have := grAux_skip LEV HEV GAP pts (pts.length - (k + 1)) (k + 1)
      (by omega) (by omega)
      (fun i hi1 hi2 => by
        obtain ⟨hw1, hw2⟩ := hwin i (by omega)
        exact ⟨hw1, hw2, hintra i (by omega) (by omega) (by omega)⟩)
      k (gapQ pts k) [(0, k - 1)]
    have he : k + 1 + (pts.length - (k + 1)) = pts.length := by omega
    rw [he] at this
    exact this
  have h4 : grAux LEV HEV GAP pts pts.length k
      (gapQ pts (pts.length - 1)) [(0, k - 1)]
      = ([(0, k - 1)], pts.length - 1, k) :=
    grAux_exit _ _ _ _ _ _ _ _ (by omega)
  unfold generate_regions
  rw [if_neg hne]
  simp only [h0, h1, h2, h3, h4]
  rw [if_pos (by omega : pts.length - 1 ≠ k)]
  rfl

/-- Witness for `C6_two_clusters_two_regions` on `ptsC6` with the
default `GAP = 12`: the inter-cluster gap `|200 - 102| = 98` exceeds
`12 * 200 / 100 = 24`, the intra-cluster gaps `2` do not, and exactly
the two regions `(0, 1)` and `(2, 3)` come out. -/
theorem C6_witness :
    gapQ ptsC6 2 > 12 * ((ptsC6.getD 2 pt0).dist : ℚ) / 100 ∧
    generate_regions 10000 30000 12 ptsC6 = some [(0, 1), (2, 3)] := by
  constructor
  · simp [gapQ, prev_dist, ptsC6, List.getD]
    norm_num
  · have h := C6_two_clusters_two_regions 10000 30000 12 ptsC6 2
      (by norm_num) (by simp [ptsC6])
      (by
        intro i hi
        have h4 : ptsC6.length = 4 := by simp [ptsC6]
        rw [h4] at hi
        interval_cases i <;> simp [ptsC6, List.getD])
      (by
        intro i hi1 hi2 hi3
        have h4 : ptsC6.length = 4 := by simp [ptsC6]
        rw [h4] at hi2
        interval_cases i
        · simp [gapQ, prev_dist, ptsC6, List.getD]
          norm_num
        · exact absurd rfl hi3
        · simp [gapQ, prev_dist, ptsC6, List.getD]
          norm_num)
      (by
        simp [gapQ, prev_dist, ptsC6, List.getD]
        norm_num)
    have h4 : ptsC6.length = 4 := by simp [ptsC6]
    rw [h4] at h
    exact h

/-- Claim C4 (amended): each steering cycle, given the heading read for
that cycle, computes `error = heading - target`, pushes `error` into the
rolling FIFO dropping the oldest (last) entry while preserving its size,
computes `p = error*KP`, `i = mean(rolling) * KI`,
`d = (error - previous_error) * KD`, stores `previous_error = error`,
and updates the running accumulator by `trim += int(p + i + d)` —
Python `int()` truncation toward zero, not `round` — returning the
accumulated trim, which is carried across calls. -/
theorem C4_pid_trim_cycle (s : PIDState) (hdg : ℚ) (hrwl : s.rwl ≠ []) :
    PID_trim s hdg =
      (⟨s.target, hdg - s.target,
        s.trimval + truncQ ((hdg - s.target) * KP
          + (((hdg - s.target) :: s.rwl.dropLast).sum
              / (((hdg - s.target) :: s.rwl.dropLast).length : ℚ)) * KI
          + ((hdg - s.target) - s.prev_error) * KD),
        (hdg - s.target) :: s.rwl.dropLast⟩,
       s.trimval + truncQ ((hdg - s.target) * KP
          + (((hdg - s.target) :: s.rwl.dropLast).sum
              / (((hdg - s.target) :: s.rwl.dropLast).length : ℚ)) * KI
          + ((hdg - s.target) - s.prev_error) * KD)) ∧
    ((hdg - s.target) :: s.rwl.dropLast).length = s.rwl.length := by
  obtain ⟨y, l, hyl⟩ := List.exists_cons_of_ne_nil hrwl
  constructor
  · unfold PID_trim
    simp only [hyl, List.dropLast_cons₂]
  · rw [hyl]
    simp [List.length_dropLast]

/-- Witness for `C4_pid_trim_cycle` on a freshly initialized controller
(target heading 0) reading heading 4. -/
theorem C4_witness :
    (PID_init 0).rwl ≠ [] ∧
    (PID_trim (PID_init 0) 4 =
      (⟨(PID_init 0).target, 4 - (PID_init 0).target,
        (PID_init 0).trimval + truncQ ((4 - (PID_init 0).target) * KP
          + (((4 - (PID_init 0).target) :: (PID_init 0).rwl.dropLast).sum
              / (((4 - (PID_init 0).target)
                  :: (PID_init 0).rwl.dropLast).length : ℚ)) * KI
          + ((4 - (PID_init 0).target) - (PID_init 0).prev_error) * KD),
        (4 - (PID_init 0).target) :: (PID_init 0).rwl.dropLast⟩,
       (PID_init 0).trimval + truncQ ((4 - (PID_init 0).target) * KP
          + (((4 - (PID_init 0).target) :: (PID_init 0).rwl.dropLast).sum
              / (((4 - (PID_init 0).target)
                  :: (PID_init 0).rwl.dropLast).length : ℚ)) * KI
          + ((4 - (PID_init 0).target) - (PID_init 0).prev_error) * KD)) ∧
    ((4 - (PID_init 0).target) :: (PID_init 0).rwl.dropLast).length
        = (PID_init 0).rwl.length) :=
  ⟨by simp [PID_init, PIDWIN], C4_pid_trim_cycle (PID_init 0) 4
    (by simp [PID_init, PIDWIN])⟩

/-- Counterexample to claim C4 as stated: a fresh controller with target
heading 0 reading heading 4 computes `p + i + d = 0.8 + 0.225 + 1.6 =
2.625`; the source truncates (`int(2.625) = 2`, trim `8 + 2 = 10`) while
the claim's `round(2.625) = 3` would give trim `11`. -/
theorem C4_counterexample :
    (PID_trim (PID_init 0) 4).2 = 10 ∧
    (PID_trim_claim (PID_init 0) 4).2 = 11 := by
  have hrep : List.replicate PIDWIN (1:ℚ) = [1, 1, 1, 1, 1, 1] := rfl
  constructor
  · simp only [PID_trim, PID_init, hrep]
    norm_num [truncQ, KP, KI, KD, PIDTRIM, List.dropLast, List.sum_cons,
      List.sum_nil]
  · simp only [PID_trim_claim, PID_init, hrep]
    norm_num [round_eq, KP, KI, KD, PIDTRIM, List.dropLast, List.sum_cons,
      List.sum_nil]

/-- Claim C3: whenever `update` is called with a value equal to the
previously recorded one (no measured progress, `delta_val = 0`), the
source divides by zero at `slope = self.delta_time / delta_val` and the
call raises an unhandled `ZeroDivisionError` (modelled as `none`) —
there is no guard skipping or repeating the update. -/
theorem C3_eta_update_no_progress_raises (s : ETAState) (val now : ℚ)
    (h : val = s.prev_val) : ETA_update s val now = none := by
  unfold ETA_update
  by_cases heq : s.initial_val = s.target
  · rw [if_pos heq]
  · rw [if_neg heq]
    have hzero :
        (if s.initial_val > s.target then s.prev_val - val
         else val - s.prev_val) = 0 := by
      subst h
      split <;> ring
    simp [hzero]

/-- Witness for `C3_eta_update_no_progress_raises`: an estimator built
with `initial_val = 100`, `target = 0`, updated with the unchanged value
`100` one time unit later, errors out. -/
theorem C3_witness :
    (100 : ℚ) = (ETA_init 100 0 0).prev_val ∧
    ETA_update (ETA_init 100 0 0) 100 1 = none :=
  ⟨rfl, C3_eta_update_no_progress_raises (ETA_init 100 0 0) 100 1 rfl⟩

theorem os_fold_all_open (radius : ℝ) :
    ∀ l : List ScanPoint, (∀ p ∈ l, (p.dist : ℝ) > radius) →
      ∀ secs s0 e0, l.foldl (os_step radius) ⟨secs, true, some (s0, e0)⟩
        = ⟨secs, true,
            some (s0, (l.getLast?.map (fun p => truncdeg p.theta)).getD e0)⟩ := by
  intro l
  induction l with
  | nil => intro _ secs s0 e0; rfl
  | cons p l ih =>
    intro hall secs s0 e0
    rw [List.foldl_cons]
    have hstep : os_step radius ⟨secs, true, some (s0, e0)⟩ p
        = ⟨secs, true, some (s0, truncdeg p.theta)⟩ := by
      simp only [os_step]
      rw [if_neg (by simp), if_pos (Or.inr (hall p (List.mem_cons_self p l)))]
    rw [hstep, ih (fun q hq => hall q (List.mem_cons_of_mem p hq)) secs s0
      (truncdeg p.theta)]
    cases l with
    | nil => rfl
    | cons q l' =>
      rw [List.getLast?_cons_cons]
      obtain ⟨x, hx⟩ : ∃ x, (q :: l').getLast? = some x :=
        ⟨(q :: l').getLast (by simp), List.getLast?_eq_getLast _ (by simp)⟩
      rw [hx]
      rfl

theorem os_fold_all_closed (radius : ℝ) :
    ∀ l : List ScanPoint,
      (∀ p ∈ l, ¬((p.dist : ℝ) < 0 ∨ (p.dist : ℝ) > radius)) →
      l.foldl (os_step radius) ⟨[], false, none⟩ = ⟨[], false, none⟩ := by
  intro l
  induction l with
  | nil => intro _; rfl
  | cons p l ih =>
    intro hall
    rw [List.foldl_cons]
    have hstep : os_step radius ⟨[], false, none⟩ p = ⟨[], false, none⟩ := by
      simp only [os_step]
      rw [if_pos (by simp), if_neg (hall p (List.mem_cons_self p l))]
    rw [hstep, ih (fun q hq => hall q (List.mem_cons_of_mem p hq))]

/-- Claim C8: for every non-empty scan in which every point's distance
exceeds `radius`, `open_sectors(radius)` returns exactly one sector,
spanning from the first point's angle to the last point's angle. -/
theorem C8_all_beyond_radius_single_sector (pts : List ScanPoint)
    (radius : ℝ) (hne : pts ≠ [])
    (hall : ∀ p ∈ pts, (p.dist : ℝ) > radius) :
    open_sectors pts radius
      = some [(truncdeg (pts.head hne).theta,
               truncdeg (pts.getLast hne).theta)] := by
  cases pts with
  | nil => exact absurd rfl hne
  | cons p l =>
    unfold open_sectors
    rw [List.foldl_cons]
    have hstep : os_step radius ⟨[], false, none⟩ p
        = ⟨[], true, some (truncdeg p.theta, truncdeg p.theta)⟩ := by
      simp only [os_step]
      rw [if_pos (by simp), if_pos (Or.inr (hall p (List.mem_cons_self p l)))]
    rw [hstep, os_fold_all_open radius l
      (fun q hq => hall q (List.mem_cons_of_mem p hq)) [] _ _]
    cases l with
    | nil => simp
    | cons q l' =>
      obtain ⟨x, hx⟩ : ∃ x, (q :: l').getLast? = some x :=
        ⟨(q :: l').getLast (by simp), List.getLast?_eq_getLast _ (by simp)⟩
      simp only [hx, Option.map_some, Option.getD_some, List.head_cons]
      have hlast : (p :: q :: l').getLast hne = (q :: l').getLast (by simp) := by
        rw [List.getLast_cons]
      have hx2 : (q :: l').getLast (by simp) = x := by
        have := List.getLast?_eq_getLast (q :: l') (by simp)
        rw [this] at hx
        exact Option.some_inj.mp hx
      rw [hlast, hx2]
      simp

theorem open_sectors_all_closed_none (pts : List ScanPoint) (radius : ℝ)
    (hclosed : ∀ p ∈ pts, ¬((p.dist : ℝ) < 0 ∨ (p.dist : ℝ) > radius)) :
    open_sectors pts radius = none := by
  unfold open_sectors
  rw [os_fold_all_closed radius pts hclosed]

/-- Claim C10: for every non-empty point list in which no point
satisfies the open test (`dist < 0 or dist > radius`), `open_sectors`
raises an unhandled `UnboundLocalError` (its `start_angle`/`end_angle`
variables are read without ever being assigned), modelled as `none`,
rather than returning an empty sector list. -/
theorem C10_no_open_point_errors (pts : List ScanPoint) (radius : ℝ)
    (hne : pts ≠ [])
    (hclosed : ∀ p ∈ pts, ¬((p.dist : ℝ) < 0 ∨ (p.dist : ℝ) > radius)) :
    open_sectors pts radius = none :=
  open_sectors_all_closed_none pts radius hclosed

theorem truncdeg_pi_div_two : truncdeg (Real.pi / 2) = 90 := by
  unfold truncdeg truncR
  have h : Real.pi / 2 * 180 / Real.pi = 90 := by
    field_simp
    ring
  rw [h, if_pos (by norm_num : (0:ℝ) ≤ 90)]
  norm_num

theorem truncdeg_pi_div_four : truncdeg (Real.pi / 4) = 45 := by
  unfold truncdeg truncR
  have h : Real.pi / 4 * 180 / Real.pi = 45 := by
    field_simp
    ring
  rw [h, if_pos (by norm_num : (0:ℝ) ≤ 45)]
  norm_num

theorem truncdeg_zero : truncdeg 0 = 0 := by
  unfold truncdeg truncR
  norm_num

/-- Witness for `C8_all_beyond_radius_single_sector` on `pts8` at
radius 20: one sector spanning 90° down to 45°. -/
theorem C8_witness :
    pts8 ≠ [] ∧ (∀ p ∈ pts8, (p.dist : ℝ) > 20) ∧
    open_sectors pts8 20 = some [(90, 45)] := by
  have hne : pts8 ≠ [] := by simp [pts8]
  have hall : ∀ p ∈ pts8, (p.dist : ℝ) > 20 := by
    intro p hp
    simp only [pts8, List.mem_cons, List.mem_singleton, List.not_mem_nil,
      or_false] at hp
    rcases hp with rfl | rfl <;> norm_num
  refine ⟨hne, hall, ?_⟩
  rw [C8_all_beyond_radius_single_sector pts8 20 hne hall]
  show some [(truncdeg (Real.pi / 2), truncdeg (Real.pi / 4))]
      = some [(90, 45)]
  rw [truncdeg_pi_div_two, truncdeg_pi_div_four]

/-- Witness for `C10_no_open_point_errors` on `pts10` at radius 10. -/
theorem C10_witness :
    pts10 ≠ [] ∧
    (∀ p ∈ pts10, ¬((p.dist : ℝ) < 0 ∨ (p.dist : ℝ) > 10)) ∧
    open_sectors pts10 10 = none := by
  have hne : pts10 ≠ [] := by simp [pts10]
  have hclosed : ∀ p ∈ pts10, ¬((p.dist : ℝ) < 0 ∨ (p.dist : ℝ) > 10) := by
    intro p hp
    simp only [pts10, List.mem_singleton] at hp
    subst hp
    norm_num
  exact ⟨hne, hclosed, C10_no_open_point_errors pts10 10 hne hclosed⟩

/-- Claim C7 (amended): `auto_detect_open_sector` computes the mean
distance over exactly those points whose distance is not `3` (the code's
filter `!= 3`, per its docstring aimed at a `-3` sentinel — zero
distances are included), uses `radius = 1.5 ×` that mean, computes the
open sectors at that radius, selects the first sector whose angular
width exceeds 12°, and sets the target to the rectangular coordinates of
the point at the sector's mid-angle at `0.7 × radius`; if no sector
qualifies, no target is set. -/
theorem C7_auto_detect_target (pts : List ScanPoint)
    (sectors : List (ℤ × ℤ))
    (h1 : ((pts.map (fun p => p.dist)).filter (fun d => d ≠ 3)).length ≠ 0)
    (h2 : open_sectors pts
        (((((pts.map (fun p => p.dist)).filter (fun d => d ≠ 3)).sum : ℤ) : ℝ)
          / ((((pts.map (fun p => p.dist)).filter
                (fun d => d ≠ 3)).length : ℕ) : ℝ) * 1.5) = some sectors) :
    auto_detect_open_sector pts
      = some ((sectors.find? (fun s => s.1 - s.2 > 12)).map
          (fun s => p2r
            ((((((pts.map (fun p => p.dist)).filter
                  (fun d => d ≠ 3)).sum : ℤ) : ℝ)
              / ((((pts.map (fun p => p.dist)).filter
                    (fun d => d ≠ 3)).length : ℕ) : ℝ) * 1.5) * 0.7)
            (((s.1 : ℝ) + (s.2 : ℝ)) / 2))) := by
  unfold auto_detect_open_sector
  simp only [if_neg h1, h2]
  rcases hf : sectors.find? (fun s => s.1 - s.2 > 12) with _ | s
  · simp [hf]
  · simp [hf]

theorem pts7_rvals :
    (pts7.map (fun p => p.dist)).filter (fun d => d ≠ 3)
      = [200, 200, 10, 10] := by
  simp [pts7]

theorem pts7_sectors :
    open_sectors pts7
      (((((pts7.map (fun p => p.dist)).filter (fun d => d ≠ 3)).sum : ℤ) : ℝ)
        / ((((pts7.map (fun p => p.dist)).filter
              (fun d => d ≠ 3)).length : ℕ) : ℝ) * 1.5)
      = some [(90, 45)] := by
  have hrad : ((((pts7.map (fun p => p.dist)).filter
        (fun d => d ≠ 3)).sum : ℤ) : ℝ)
      / ((((pts7.map (fun p => p.dist)).filter
            (fun d => d ≠ 3)).length : ℕ) : ℝ) * 1.5 = 157.5 := by
    rw [pts7_rvals]
    norm_num
  rw [hrad]
  have s1 : os_step 157.5 ⟨[], false, none⟩ ⟨200, Real.pi / 2⟩
      = ⟨[], true, some (90, 90)⟩ := by
    simp only [os_step]
    rw [if_pos (by simp),
      if_pos (Or.inr (by norm_num : ((200:ℤ) : ℝ) > 157.5))]
    rw [truncdeg_pi_div_two]
  have s2 : os_step 157.5 ⟨[], true, some (90, 90)⟩ ⟨200, Real.pi / 4⟩
      = ⟨[], true, some (90, 45)⟩ := by
    simp only [os_step]
    rw [if_neg (by simp),
      if_pos (Or.inr (by norm_num : ((200:ℤ) : ℝ) > 157.5))]
    rw [truncdeg_pi_div_four]
  have s3 : os_step 157.5 ⟨[], true, some (90, 45)⟩ ⟨10, 0⟩
      = ⟨[(90, 45)], false, some (90, 45)⟩ := by
    simp only [os_step]
    rw [if_neg (by simp),
      if_neg (by push_cast; norm_num :
        ¬(((10:ℤ) : ℝ) < 0 ∨ ((10:ℤ) : ℝ) > 157.5)),
      if_pos (by norm_num : ((10:ℤ) : ℝ) < 157.5)]
    rfl
  have s4 : os_step 157.5 ⟨[(90, 45)], false, some (90, 45)⟩ ⟨10, 0⟩
      = ⟨[(90, 45)], false, some (90, 45)⟩ := by
    simp only [os_step]
    rw [if_pos (by simp),
      if_neg (by push_cast; norm_num :
        ¬(((10:ℤ) : ℝ) < 0 ∨ ((10:ℤ) : ℝ) > 157.5))]
  unfold open_sectors
  show (match (List.foldl (os_step 157.5) ⟨[], false, none⟩ pts7).bounds with
    | none => none
    | some sec =>
        some (if sec ∈ (List.foldl (os_step 157.5) ⟨[], false, none⟩
            pts7).sectors
          then (List.foldl (os_step 157.5) ⟨[], false, none⟩ pts7).sectors
          else (List.foldl (os_step 157.5) ⟨[], false, none⟩ pts7).sectors
            ++ [sec])) = some [(90, 45)]
  rw [show pts7 = [⟨200, Real.pi / 2⟩, ⟨200, Real.pi / 4⟩,
    ⟨10, 0⟩, ⟨10, 0⟩] from rfl]
  rw [List.foldl_cons, s1, List.foldl_cons, s2, List.foldl_cons, s3,
    List.foldl_cons, s4, List.foldl_nil]
  simp

/-- Witness for `C7_auto_detect_target` on `pts7`: mean 105, radius
157.5, first (and only) sector `(90°, 45°)` is 45° wide, target at
mid-angle 67.5° and radius `157.5 × 0.7`. -/
theorem C7_witness :
    ((pts7.map (fun p => p.dist)).filter (fun d => d ≠ 3)).length ≠ 0 ∧
    open_sectors pts7
      (((((pts7.map (fun p => p.dist)).filter (fun d => d ≠ 3)).sum : ℤ) : ℝ)
        / ((((pts7.map (fun p => p.dist)).filter
              (fun d => d ≠ 3)).length : ℕ) : ℝ) * 1.5)
      = some [(90, 45)] ∧
    auto_detect_open_sector pts7
      = some (some (p2r (157.5 * 0.7) ((90 + 45) / 2))) := by
  have h1 : ((pts7.map (fun p => p.dist)).filter
      (fun d => d ≠ 3)).length ≠ 0 := by
    rw [pts7_rvals]
    norm_num
  refine ⟨h1, pts7_sectors, ?_⟩
  rw [C7_auto_detect_target pts7 [(90, 45)] h1 pts7_sectors]
  have hfind : ([((90:ℤ), (45:ℤ))].find? (fun s => s.1 - s.2 > 12))
      = some (90, 45) := by decide
  rw [hfind]
  have hrad : ((((pts7.map (fun p => p.dist)).filter
        (fun d => d ≠ 3)).sum : ℤ) : ℝ)
      / ((((pts7.map (fun p => p.dist)).filter
            (fun d => d ≠ 3)).length : ℕ) : ℝ) * 1.5 = 157.5 := by
    rw [pts7_rvals]
    norm_num
  simp only [Option.map_some', hrad]
  norm_num

/-- Counterexample to claim C7 as stated: on `ptsX7` the source filters
only distances equal to 3, so the zero-distance point is *included* in
the mean (`mean 15`, `radius 22.5`), the 30 cm point opens a
(zero-width) sector and no target is set (`some none`); filtering
nonzero distances as the claim states gives `mean 30`, `radius 45`, no
point is ever open and `open_sectors` raises (`none`). -/
theorem C7_counterexample :
    auto_detect_open_sector ptsX7 = some none ∧
    auto_detect_open_sector_claim ptsX7 = none := by
  constructor
  · have h1 : ¬((ptsX7.map (fun p => p.dist)).filter
        (fun d => d ≠ 3)).length = 0 := by
      simp [ptsX7]
    have hrv : (ptsX7.map (fun p => p.dist)).filter (fun d => d ≠ 3)
        = [0, 30] := by
      simp [ptsX7]
    have hos : open_sectors ptsX7
        (((((ptsX7.map (fun p => p.dist)).filter
              (fun d => d ≠ 3)).sum : ℤ) : ℝ)
          / ((((ptsX7.map (fun p => p.dist)).filter
                (fun d => d ≠ 3)).length : ℕ) : ℝ) * 1.5)
        = some [(0, 0)] := by
      have hrad : ((((ptsX7.map (fun p => p.dist)).filter
            (fun d => d ≠ 3)).sum : ℤ) : ℝ)
          / ((((ptsX7.map (fun p => p.dist)).filter
                (fun d => d ≠ 3)).length : ℕ) : ℝ) * 1.5 = 22.5 := by
        rw [hrv]
        norm_num
      rw [hrad]
      have s1 : os_step 22.5 ⟨[], false, none⟩ ⟨0, Real.pi / 2⟩
          = ⟨[], false, none⟩ := by
        simp only [os_step]
        rw [if_pos (by simp),
          if_neg (by push_cast; norm_num :
            ¬(((0:ℤ) : ℝ) < 0 ∨ ((0:ℤ) : ℝ) > 22.5))]
      have s2 : os_step 22.5 ⟨[], false, none⟩ ⟨30, 0⟩
          = ⟨[], true, some (0, 0)⟩ := by
        simp only [os_step]
        rw [if_pos (by simp),
          if_pos (Or.inr (by norm_num : ((30:ℤ) : ℝ) > 22.5))]
        rw [truncdeg_zero]
      unfold open_sectors
      rw [show ptsX7 = [⟨0, Real.pi / 2⟩, ⟨30, 0⟩] from rfl]
      rw [List.foldl_cons, s1, List.foldl_cons, s2, List.foldl_nil]
      simp
    unfold auto_detect_open_sector
    simp only [if_neg h1, hos]
    rfl
  · have h1 : ¬((ptsX7.map (fun p => p.dist)).filter
        (fun d => d ≠ 0)).length = 0 := by
      simp [ptsX7]
    have hrv : (ptsX7.map (fun p => p.dist)).filter (fun d => d ≠ 0)
        = [30] := by
      simp [ptsX7]
    have hos : open_sectors ptsX7
        (((((ptsX7.map (fun p => p.dist)).filter
              (fun d => d ≠ 0)).sum : ℤ) : ℝ)
          / ((((ptsX7.map (fun p => p.dist)).filter
                (fun d => d ≠ 0)).length : ℕ) : ℝ) * 1.5)
        = none := by
      have hrad : ((((ptsX7.map (fun p => p.dist)).filter
            (fun d => d ≠ 0)).sum : ℤ) : ℝ)
          / ((((ptsX7.map (fun p => p.dist)).filter
                (fun d => d ≠ 0)).length : ℕ) : ℝ) * 1.5 = 45 := by
        rw [hrv]
        norm_num
      rw [hrad]
      refine open_sectors_all_closed_none ptsX7 45 ?_
      intro p hp
      simp only [ptsX7, List.mem_cons, List.mem_singleton,
        List.not_mem_nil, or_false] at hp
      rcases hp with rfl | rfl <;> push_cast <;> norm_num
    unfold auto_detect_open_sector_claim
    simp only [if_neg h1, hos]

theorem sorted_rel_getLast {α : Type} {r : α → α → Prop} :
    ∀ (l : List α) (hne : l ≠ []), List.Pairwise r l →
      ∀ x ∈ l, x = l.getLast hne ∨ r x (l.getLast hne) := by
  intro l
  induction l with
  | nil => intro h; exact absurd rfl h
  | cons a l ih =>
    intro hne hpw x hx
    cases l with
    | nil =>
      simp only [List.mem_singleton] at hx
      subst hx
      left
      rfl
    | cons b l' =>
      rw [List.getLast_cons (by simp)]
      rcases List.mem_cons.mp hx with rfl | hx'
      · right
        exact (List.pairwise_cons.mp hpw).1 _ (List.getLast_mem _)
      · exact ih (by simp) (List.pairwise_cons.mp hpw).2 x hx'

theorem segments_in_region_eq (ps : PScan) (indx : ℕ) :
    segments_in_region ps indx
      = ((List.insertionSort (fun a b : (ℕ × ℕ) × ℤ => a.2 ≤ b.2)
          ((ps.segments.filter (fun s =>
              (ps.regions.getD indx (0, 0)).1 ≤ s.1 ∧
              s.1 ≤ (ps.regions.getD indx (0, 0)).2)).map
            (fun s => (s, (s.2 : ℤ) - (s.1 : ℤ))))).reverse).map
        (fun p => p.1) := rfl

/-- Claim C2: the scan-processing step of `align_to_wall` /
`square_to_wall` returns the line parameters of the dominant (longest,
by index span) segment of the closest region, and the maneuver turns in
place to the heading that nulls the segment's angle: `heading - angle +
90` for align-parallel, `heading - angle` for square-on.  (The
`closest_region` selection and the segment-parameterized
`get_line_parameters` are spec-modelled; see their definitions.) -/
theorem C2_align_to_wall_nulls_segment_angle (ps : PScan) (heading : ℝ)
    (i : ℕ) (seg : ℕ × ℕ) (rest : List (ℕ × ℕ))
    (hi : closest_region ps = some i)
    (hsegs : segments_in_region ps i = seg :: rest) :
    get_closest_line_params ps = some (line_params_of_segment ps.points seg) ∧
    align_to_wall_target ps heading
      = some (heading - p2p_angle (ps.points.getD seg.1 pt0).xy
          (ps.points.getD seg.2 pt0).xy + 90) ∧
    square_to_wall_target ps heading
      = some (heading - p2p_angle (ps.points.getD seg.1 pt0).xy
          (ps.points.getD seg.2 pt0).xy) ∧
    ∀ s ∈ ps.segments,
      (ps.regions.getD i (0, 0)).1 ≤ s.1 →
      s.1 ≤ (ps.regions.getD i (0, 0)).2 →
      (s.2 : ℤ) - (s.1 : ℤ) ≤ (seg.2 : ℤ) - (seg.1 : ℤ) := by
  have hclp : get_closest_line_params ps
      = some (line_params_of_segment ps.points seg) := by
    unfold get_closest_line_params
    simp only [hi, hsegs]
  refine ⟨hclp, ?_, ?_, ?_⟩
  · unfold align_to_wall_target
    simp only [hclp]
    rfl
  · unfold square_to_wall_target
    simp only [hclp]
    rfl
  · intro s hs h1 h2
    rw [segments_in_region_eq] at hsegs
    have hmem : (s, (s.2 : ℤ) - (s.1 : ℤ))
        ∈ (ps.segments.filter (fun t =>
            (ps.regions.getD i (0, 0)).1 ≤ t.1 ∧
            t.1 ≤ (ps.regions.getD i (0, 0)).2)).map
          (fun t => (t, (t.2 : ℤ) - (t.1 : ℤ))) := by
      refine List.mem_map_of_mem _ ?_
      rw [List.mem_filter]
      refine ⟨hs, ?_⟩
      simp only [decide_eq_true_eq]
      exact ⟨h1, h2⟩
    rcases hrev : (List.insertionSort (fun a b : (ℕ × ℕ) × ℤ => a.2 ≤ b.2)
        ((ps.segments.filter (fun t =>
            (ps.regions.getD i (0, 0)).1 ≤ t.1 ∧
            t.1 ≤ (ps.regions.getD i (0, 0)).2)).map
          (fun t => (t, (t.2 : ℤ) - (t.1 : ℤ))))).reverse with _ | ⟨p, l'⟩
    · rw [hrev] at hsegs
      simp at hsegs
    · rw [hrev, List.map_cons] at hsegs
      have hp1 : p.1 = seg := by
        injection hsegs
      have hnnil : List.insertionSort (fun a b : (ℕ × ℕ) × ℤ => a.2 ≤ b.2)
          ((ps.segments.filter (fun t =>
              (ps.regions.getD i (0, 0)).1 ≤ t.1 ∧
              t.1 ≤ (ps.regions.getD i (0, 0)).2)).map
            (fun t => (t, (t.2 : ℤ) - (t.1 : ℤ)))) ≠ [] := by
        intro h
        rw [h] at hrev
        simp at hrev
      have hlastq : (List.insertionSort (fun a b : (ℕ × ℕ) × ℤ => a.2 ≤ b.2)
          ((ps.segments.filter (fun t =>
              (ps.regions.getD i (0, 0)).1 ≤ t.1 ∧
              t.1 ≤ (ps.regions.getD i (0, 0)).2)).map
            (fun t => (t, (t.2 : ℤ) - (t.1 : ℤ))))).getLast? = some p := by
        rw [← List.head?_reverse, hrev]
        rfl
      have hlast : (List.insertionSort (fun a b : (ℕ × ℕ) × ℤ => a.2 ≤ b.2)
          ((ps.segments.filter (fun t =>
              (ps.regions.getD i (0, 0)).1 ≤ t.1 ∧
              t.1 ≤ (ps.regions.getD i (0, 0)).2)).map
            (fun t => (t, (t.2 : ℤ) - (t.1 : ℤ))))).getLast hnnil = p := by
        have h := List.getLast?_eq_getLast _ hnnil
        rw [h] at hlastq
        exact Option.some_inj.mp hlastq
      have hmem2 : (s, (s.2 : ℤ) - (s.1 : ℤ))
          ∈ List.insertionSort (fun a b : (ℕ × ℕ) × ℤ => a.2 ≤ b.2)
            ((ps.segments.filter (fun t =>
                (ps.regions.getD i (0, 0)).1 ≤ t.1 ∧
                t.1 ≤ (ps.regions.getD i (0, 0)).2)).map
              (fun t => (t, (t.2 : ℤ) - (t.1 : ℤ)))) :=
        ((List.perm_insertionSort _ _).mem_iff).mpr hmem
      have hsorted := List.sorted_insertionSort
        (fun a b : (ℕ × ℕ) × ℤ => a.2 ≤ b.2)
        ((ps.segments.filter (fun t =>
            (ps.regions.getD i (0, 0)).1 ≤ t.1 ∧
            t.1 ≤ (ps.regions.getD i (0, 0)).2)).map
          (fun t => (t, (t.2 : ℤ) - (t.1 : ℤ))))
      rcases sorted_rel_getLast _ hnnil hsorted _ hmem2 with heq | hle
      · rw [hlast] at heq
        have hseq : s = seg := by
          rw [← heq] at hp1
          exact hp1
        rw [hseq]
      · rw [hlast] at hle
        have hpmem : p ∈ (ps.segments.filter (fun t =>
            (ps.regions.getD i (0, 0)).1 ≤ t.1 ∧
            t.1 ≤ (ps.regions.getD i (0, 0)).2)).map
          (fun t => (t, (t.2 : ℤ) - (t.1 : ℤ))) := by
          refine ((List.perm_insertionSort
            (fun a b : (ℕ × ℕ) × ℤ => a.2 ≤ b.2) _).mem_iff).mp ?_
          rw [← hlast]
          exact List.getLast_mem hnnil
        obtain ⟨t, _, htp⟩ := List.mem_map.mp hpmem
        rw [← htp] at hle hp1
        simp only at hp1 hle
        rw [hp1] at hle
        exact hle

/-- Witness for `C2_align_to_wall_nulls_segment_angle` on `psW` with
current heading 180°. -/
theorem C2_witness :
    closest_region psW = some 0 ∧
    segments_in_region psW 0 = [(0, 1)] ∧
    (get_closest_line_params psW
        = some (line_params_of_segment psW.points (0, 1)) ∧
      align_to_wall_target psW 180
        = some (180 - p2p_angle (psW.points.getD 0 pt0).xy
            (psW.points.getD 1 pt0).xy + 90) ∧
      square_to_wall_target psW 180
        = some (180 - p2p_angle (psW.points.getD 0 pt0).xy
            (psW.points.getD 1 pt0).xy) ∧
      ∀ s ∈ psW.segments,
        (psW.regions.getD 0 (0, 0)).1 ≤ s.1 →
        s.1 ≤ (psW.regions.getD 0 (0, 0)).2 →
        (s.2 : ℤ) - (s.1 : ℤ) ≤ ((1:ℕ) : ℤ) - ((0:ℕ) : ℤ)) := by
  have h1 : closest_region psW = some 0 := rfl
  have h2 : segments_in_region psW 0 = [(0, 1)] := rfl
  exact ⟨h1, h2,
    C2_align_to_wall_nulls_segment_angle psW 180 0 (0, 1) [] h1 h2⟩

end Lidar

